import Mathlib

/-!
Shallow embedding of the appointment-scheduler core:
time parsing/formatting (`src/utils/timeSlots.ts`), 30-minute slot
generation, booking reconciliation, the appointment ledger
(`src/stores/appointments.ts`), doctor grouping (`src/services/api.ts`)
and the weekly projection (`src/components/TimeSlotGrid.vue`).

JavaScript numbers are embedded as `Nat` (all quantities involved are
nonnegative integers); date valuations (`new Date(s).getTime()`) are
embedded as an abstract valuation `String → Int`; a fallible function
(one that `throw`s) returns `Option`/`Except`.
-/

/-! ## TimeParser (`parseTime` / `formatTime` in `src/utils/timeSlots.ts`) -/

/-- Result record of `parseTime`: `{ hours, minutes }`. -/
structure ParsedTime where
  hours : Nat
  minutes : Nat
deriving DecidableEq, Repr

/-- `timeString.trim().replace(/\s+/g, '')`: removing every whitespace
character (trimming is subsumed by removing all whitespace). -/
def cleanChars (s : String) : List Char :=
  s.toList.filter (fun c => !c.isWhitespace)

/-- Numeric value of a decimal digit character. -/
def digitVal (c : Char) : Nat := c.toNat - '0'.toNat

/-- `parseInt` on a nonempty string of decimal digits. -/
def natOfDigits (ds : List Char) : Nat :=
  ds.foldl (fun n c => n * 10 + digitVal c) 0

/-- The regex match `^(\d{1,2}):(\d{2})(AM|PM)$/i` on the cleaned
characters. Returns `(hour value, minute value, marker is PM)` on match.
The hour group is the maximal leading digit run (1 or 2 digits; a run of
3 or more digits cannot match, since after backtracking the character
required to be `:` would still be a digit). -/
def matchTime (cs : List Char) : Option (Nat × Nat × Bool) :=
  let ds := cs.takeWhile Char.isDigit
  let rest := cs.drop ds.length
  if 1 ≤ ds.length ∧ ds.length ≤ 2 then
    match rest with
    | ':' :: m1 :: m2 :: p1 :: p2 :: [] =>
      if m1.isDigit && m2.isDigit
          && (p1.toUpper == 'A' || p1.toUpper == 'P') && p2.toUpper == 'M' then
        some (natOfDigits ds, digitVal m1 * 10 + digitVal m2, p1.toUpper == 'P')
      else
        none
    | _ => none
  else
    none

/-- `parseTime(timeString)`: match the cleaned input, then convert to the
24-hour representation (`PM` and hour ≠ 12 adds 12; `AM` and hour = 12
resets to 0). `none` embeds the thrown `Invalid time format` error. -/
def parseTime (timeString : String) : Option ParsedTime :=
  match matchTime (cleanChars timeString) with
  | none => none
  | some (h, m, isPM) =>
    if isPM ∧ h ≠ 12 then some ⟨h + 12, m⟩
    else if ¬isPM ∧ h = 12 then some ⟨0, m⟩
    else some ⟨h, m⟩

/-- `minutes.toString().padStart(2, '0')`. -/
def padTwo (n : Nat) : String :=
  let s := toString n
  if s.length < 2 then "0" ++ s else s

/-- `formatTime(hours, minutes)`: 12-hour display string
`{displayHours}:{displayMinutes} {period}`. -/
def formatTime (hours minutes : Nat) : String :=
  let period := if hours ≥ 12 then "PM" else "AM"
  let displayHours := if hours = 0 then 12 else if hours > 12 then hours - 12 else hours
  toString displayHours ++ ":" ++ padTwo minutes ++ " " ++ period

/-- The canonical (whitespace-normalized) rendering `H:MM AM` / `H:MM PM`
of a 12-hour time with hour `h`, minute value `m` and meridiem `pm`. -/
def canonicalTime (h m : Nat) (pm : Bool) : String :=
  toString h ++ ":" ++ padTwo m ++ " " ++ (if pm then "PM" else "AM")

/-- Minutes since midnight of a parsed time (`hours * 60 + minutes`). -/
def totalMinutes (t : ParsedTime) : Nat := t.hours * 60 + t.minutes

/-! ## SlotGenerator (`generateTimeSlots` in `src/utils/timeSlots.ts`) -/

/-- `TimeSlot` of `src/types/index.ts` (the optional `date` field
included; `generateTimeSlots` leaves it absent). -/
structure TimeSlot where
  startTime : String
  endTime : String
  isAvailable : Bool
  isBooked : Bool
  date : Option String := none
deriving DecidableEq, Repr

/-- The `while (currentTotalMinutes < endTotalMinutes)` loop of
`generateTimeSlots`. `curH`/`curM` carry `currentHours`/`currentMinutes`
(on the first iteration these are the raw parsed fields, not recomputed
from the total). `fuel` bounds the iteration count structurally; each
iteration advances `curTotal` by 30, so any fuel ≥ `endTotal - curTotal`
is enough. -/
def genSlotsAux (endTotal : Nat) : Nat → Nat → Nat → Nat → List TimeSlot
  | _, _, _, 0 => []
  | curH, curM, curTotal, fuel + 1 =>
    if curTotal < endTotal then
      let slotStart := formatTime curH curM
      let t := curTotal + 30
      let h := t / 60
      let m := t % 60
      let slotEnd := formatTime h m
      ⟨slotStart, slotEnd, true, false, none⟩ :: genSlotsAux endTotal h m t fuel
    else
      []

/-- `generateTimeSlots(startTime, endTime)`: parse both bounds, then emit
one 30-minute slot per loop iteration while the running total stays below
the end total. -/
def generateTimeSlots (startTime endTime : String) : Option (List TimeSlot) := do
  let s ← parseTime startTime
  let e ← parseTime endTime
  let startTotal := s.hours * 60 + s.minutes
  let endTotal := e.hours * 60 + e.minutes
  pure (genSlotsAux endTotal s.hours s.minutes startTotal (endTotal - startTotal))

/-! ## Appointments and the BookingReconciler -/

/-- `Appointment` of `src/types/index.ts`. -/
structure Appointment where
  id : String
  doctorName : String
  doctorTimezone : String
  date : String
  dayOfWeek : String
  startTime : String
  endTime : String
  bookedAt : String
deriving DecidableEq, Repr

/-- `isSlotBooked(slot, date, doctorName, appointments)`:
`appointments.some` with exact string equality on doctor name, date,
start time and end time. -/
def isSlotBooked (slot : TimeSlot) (date doctorName : String)
    (appointments : List Appointment) : Bool :=
  appointments.any fun appt =>
    appt.doctorName == doctorName &&
    appt.date == date &&
    appt.startTime == slot.startTime &&
    appt.endTime == slot.endTime

/-- `markBookedSlots(slots, date, doctorName, appointments)`:
`slots.map` producing a copy of each slot with `isBooked` set from
`isSlotBooked` and `isAvailable` its negation (the source calls
`isSlotBooked` twice, once per field). -/
def markBookedSlots (slots : List TimeSlot) (date doctorName : String)
    (appointments : List Appointment) : List TimeSlot :=
  slots.map fun slot =>
    { slot with
      isBooked := isSlotBooked slot date doctorName appointments
      isAvailable := !isSlotBooked slot date doctorName appointments }

/-! ## AppointmentLedger (`src/stores/appointments.ts`) -/

/-- The `some` predicate inside `bookAppointment`: an existing entry
collides with the new appointment on `(doctorName, date, startTime)`. -/
def sameSlot (a b : Appointment) : Bool :=
  a.doctorName == b.doctorName && a.date == b.date && a.startTime == b.startTime

/-- `bookAppointment(appointment)`: throw `This time slot is already
booked` on a `(doctorName, date, startTime)` collision, otherwise push
the appointment at the end of the ledger. -/
def bookAppointment (appointments : List Appointment) (appointment : Appointment) :
    Except String (List Appointment) :=
  if appointments.any (fun appt => sameSlot appt appointment) then
    .error "This time slot is already booked"
  else
    .ok (appointments ++ [appointment])

/-- `cancelAppointment(appointmentId)`: `findIndex` on exact id equality;
throw `Appointment not found` when absent, otherwise `splice` out the
single entry at the found index. -/
def cancelAppointment (appointments : List Appointment) (appointmentId : String) :
    Except String (List Appointment) :=
  match appointments.findIdx? (fun appt => appt.id == appointmentId) with
  | none => .error "Appointment not found"
  | some i => .ok (appointments.eraseIdx i)

/-- A user-level ledger operation: one `bookAppointment` or
`cancelAppointment` call. -/
inductive LedgerOp where
  | book (appointment : Appointment)
  | cancel (appointmentId : String)
deriving DecidableEq, Repr

/-- Run one operation against the ledger; a thrown error leaves the
ledger state unchanged (the store rethrows to the UI without mutating). -/
def applyOp (appointments : List Appointment) : LedgerOp → List Appointment
  | .book a =>
    match bookAppointment appointments a with
    | .ok l => l
    | .error _ => appointments
  | .cancel i =>
    match cancelAppointment appointments i with
    | .ok l => l
    | .error _ => appointments

/-- Run a sequence of ledger operations from a starting state. -/
def runOps (appointments : List Appointment) (ops : List LedgerOp) : List Appointment :=
  ops.foldl applyOp appointments

/-- No two ledger entries collide on `(doctorName, date, startTime)`. -/
def slotUnique (appointments : List Appointment) : Prop :=
  appointments.Pairwise fun a b => sameSlot a b = false

/-- Derived view `upcomingAppointments`: filter by `parsed date ≥ now`,
then sort ascending by parsed date. `dv` abstracts
`new Date(s).getTime()`; the stable comparison sort of
`Array.prototype.sort` is embedded as insertion sort. -/
def upcomingAppointments (dv : String → Int) (now : Int)
    (appointments : List Appointment) : List Appointment :=
  (appointments.filter fun appt => decide (now ≤ dv appt.date)).insertionSort
    fun a b => dv a.date ≤ dv b.date

/-- Derived view `pastAppointments`: filter by `parsed date < now`, then
sort descending by parsed date. -/
def pastAppointments (dv : String → Int) (now : Int)
    (appointments : List Appointment) : List Appointment :=
  (appointments.filter fun appt => decide (dv appt.date < now)).insertionSort
    fun a b => dv b.date ≤ dv a.date

/-! ## Doctor grouping (`groupSchedulesByDoctor` in `src/services/api.ts`) -/

/-- Raw API record `DoctorScheduleRaw` of `src/types/index.ts`. -/
structure DoctorScheduleRaw where
  name : String
  timezone : String
  day_of_week : String
  available_at : String
  available_until : String
deriving DecidableEq, Repr

/-- `DoctorSchedule` of `src/types/index.ts`: one availability window. -/
structure DoctorSchedule where
  dayOfWeek : String
  availableAt : String
  availableUntil : String
deriving DecidableEq, Repr

/-- `Doctor` of `src/types/index.ts`. -/
structure Doctor where
  name : String
  timezone : String
  schedules : List DoctorSchedule
deriving DecidableEq, Repr

/-- `text.trim()`: drop leading and trailing whitespace (embedded at the
character level so the kernel can evaluate it). -/
def trimChars (s : String) : String :=
  ⟨((s.toList.dropWhile Char.isWhitespace).reverse.dropWhile Char.isWhitespace).reverse⟩

/-- The window pushed per raw record: trimmed start/end times. -/
def toWindow (s : DoctorScheduleRaw) : DoctorSchedule :=
  ⟨s.day_of_week, trimChars s.available_at, trimChars s.available_until⟩

/-- One `forEach` step of `groupSchedulesByDoctor`: the insertion-ordered
`Map` is embedded as the list of doctors in first-appearance order; a
record for a known name appends its window to that doctor, a new name
appends a fresh doctor (timezone taken from this first record). -/
def addSchedule (acc : List Doctor) (s : DoctorScheduleRaw) : List Doctor :=
  if acc.any (fun d => d.name == s.name) then
    acc.map fun d =>
      if d.name == s.name then { d with schedules := d.schedules ++ [toWindow s] } else d
  else
    acc ++ [⟨s.name, s.timezone, [toWindow s]⟩]

/-- `groupSchedulesByDoctor(schedules)`. -/
def groupSchedulesByDoctor (schedules : List DoctorScheduleRaw) : List Doctor :=
  schedules.foldl addSchedule []

/-! ## Weekly projection (`slotsPerDay` in `src/components/TimeSlotGrid.vue`) -/

/-- One entry of the `slotsPerDay` computed result (the display-only
`date`/`displayDate` fields, pure renderings of `dateString`, are not
modelled). -/
structure DayEntry where
  dateString : String
  dayName : String
  schedule : Option DoctorSchedule
  slots : List TimeSlot
deriving DecidableEq, Repr

/-- The body of the `weekDates.forEach` in `slotsPerDay` for one day
`(dayName, dateString)`: resolve the day to the first matching window
via `schedules.find`, generate and mark its slots, or produce an entry
with no schedule and an empty slot list. -/
def projectDay (doctor : Doctor) (appointments : List Appointment)
    (dayName dateString : String) : Option DayEntry :=
  match doctor.schedules.find? (fun s => s.dayOfWeek == dayName) with
  | some schedule =>
    (generateTimeSlots schedule.availableAt schedule.availableUntil).map fun slots =>
      ⟨dateString, dayName, some schedule,
        markBookedSlots slots dateString doctor.name appointments⟩
  | none => some ⟨dateString, dayName, none, []⟩

/-- `slotsPerDay` over a list of projected days, each given as
`(dayName, dateString)`; `getNextWeekDates()`/`getDayOfWeek`, which read
the wall clock, are abstracted into this input list (always 7 days in
the component). -/
def slotsPerDay (doctor : Doctor) (appointments : List Appointment) :
    List (String × String) → Option (List DayEntry)
  | [] => some []
  | day :: rest => do
    let e ← projectDay doctor appointments day.1 day.2
    let es ← slotsPerDay doctor appointments rest
    pure (e :: es)

/-! ## Claims about the TimeParser -/

/-- C3: `parseTime` applies no upper-bound validation on the 1-2 digit
hour: any matched input with a PM marker and hour `h ≠ 12` parses to
hour `h + 12` even when `h > 12`; in particular `parseTime "13:00PM"`
succeeds with hour 25, minute 0. -/
theorem parseTime_pm_no_upper_bound :
    (∀ s h m, matchTime (cleanChars s) = some (h, m, true) → h ≠ 12 →
      parseTime s = some ⟨h + 12, m⟩) ∧
    parseTime "13:00PM" = some ⟨25, 0⟩ := by
  constructor
  · intro s h m hm hne
    simp [parseTime, hm, hne]
  · decide

/-- Witness for C3 at the concrete input `13:00PM`. -/
theorem parseTime_pm_no_upper_bound_witness :
    matchTime (cleanChars "13:00PM") = some (13, 0, true) ∧
    parseTime "13:00PM" = some ⟨13 + 12, 0⟩ :=
  ⟨by decide, parseTime_pm_no_upper_bound.1 "13:00PM" 13 0 (by decide) (by decide)⟩

/-- C10: `parseTime` applies no range validation to the 2-digit minute
field either: any matched input whose minute digits encode `m > 59`
parses successfully with that minute value unchanged; in particular
`parseTime "9:75AM"` succeeds with hours 9, minutes 75. -/
theorem parseTime_minute_no_validation :
    (∀ s h m pm, matchTime (cleanChars s) = some (h, m, pm) → 59 < m →
      ∃ r, parseTime s = some r ∧ r.minutes = m) ∧
    parseTime "9:75AM" = some ⟨9, 75⟩ := by
  constructor
  · intro s h m pm hm _
    have hps : parseTime s =
        if pm = true ∧ h ≠ 12 then some ⟨h + 12, m⟩
        else if ¬pm = true ∧ h = 12 then some ⟨0, m⟩
        else some ⟨h, m⟩ := by
      simp [parseTime, hm]
    split_ifs at hps <;> exact ⟨_, hps, rfl⟩
  · decide

/-- Witness for C10 at the concrete input `9:75AM`. -/
theorem parseTime_minute_no_validation_witness :
    matchTime (cleanChars "9:75AM") = some (9, 75, false) ∧ 59 < 75 ∧
    ∃ r, parseTime "9:75AM" = some r ∧ r.minutes = 75 :=
  ⟨by decide, by decide,
    parseTime_minute_no_validation.1 "9:75AM" 9 75 false (by decide) (by decide)⟩

/-- C4: round-trip — for every input that matches the 12-hour pattern
with hour `h ∈ [1, 12]`, minute value `m` and meridiem `pm`, feeding the
hour and minute returned by `parseTime` back into `formatTime` yields the
canonical whitespace-normalized rendering `H:MM AM` / `H:MM PM` of the
input. -/
theorem parseTime_formatTime_roundTrip :
    ∀ s h m pm, matchTime (cleanChars s) = some (h, m, pm) → 1 ≤ h → h ≤ 12 →
      ∃ r, parseTime s = some r ∧ formatTime r.hours r.minutes = canonicalTime h m pm := by
  intro s h m pm hm h1 h2
  cases pm with
  | true =>
    by_cases h12 : h = 12
    · subst h12
      refine ⟨⟨12, m⟩, by simp [parseTime, hm], ?_⟩
      simp [formatTime, canonicalTime]
    · refine ⟨⟨h + 12, m⟩, by simp [parseTime, hm, h12], ?_⟩
      have hgt : h + 12 > 12 := by omega
      have hne : ¬(h + 12 = 0) := by omega
      simp [formatTime, canonicalTime, hne, hgt]
  | false =>
    by_cases h12 : h = 12
    · subst h12
      refine ⟨⟨0, m⟩, by simp [parseTime, hm], ?_⟩
      simp [formatTime, canonicalTime]
    · refine ⟨⟨h, m⟩, by simp [parseTime, hm, h12], ?_⟩
      have hlt : ¬(h ≥ 12) := by omega
      have hne : ¬(h = 0) := by omega
      have hngt : ¬(h > 12) := by omega
      simp [formatTime, canonicalTime, hlt, hne, hngt]

/-- Witness for C4 at the concrete input `12:30 pm` (canonical form
`12:30 PM`). -/
theorem parseTime_formatTime_roundTrip_witness :
    matchTime (cleanChars "12:30 pm") = some (12, 30, true) ∧
    ∃ r, parseTime "12:30 pm" = some r ∧
      formatTime r.hours r.minutes = canonicalTime 12 30 true :=
  ⟨by decide,
    parseTime_formatTime_roundTrip "12:30 pm" 12 30 true (by decide) (by decide) (by decide)⟩

/-! ## Claims about the SlotGenerator -/

/-- The loop emits nothing once the running total has reached the end
total, whatever fuel remains. -/
lemma genSlotsAux_stop (endTotal curH curM curTotal fuel : Nat)
    (h : endTotal ≤ curTotal) :
    genSlotsAux endTotal curH curM curTotal fuel = [] := by
  cases fuel with
  | zero => rfl
  | succ n => simp [genSlotsAux, Nat.not_lt.mpr h]

/-- With enough fuel, the loop runs exactly
`⌈(endTotal - curTotal) / 30⌉` iterations. -/
lemma genSlotsAux_length (endTotal : Nat) :
    ∀ fuel curH curM curTotal, endTotal - curTotal ≤ 30 * fuel →
      (genSlotsAux endTotal curH curM curTotal fuel).length
        = (endTotal - curTotal + 29) / 30 := by
  intro fuel
  induction fuel with
  | zero =>
    intro curH curM curTotal hf
    simp only [genSlotsAux, List.length_nil]
    omega
  | succ n ih =>
    intro curH curM curTotal hf
    by_cases hlt : curTotal < endTotal
    · rw [genSlotsAux, if_pos hlt]
      rw [List.length_cons, ih _ _ _ (by omega)]
      omega
    · rw [genSlotsAux, if_neg hlt]
      simp only [List.length_nil]
      omega

/-- C2 (amended): for valid bounds, `generateTimeSlots` emits exactly
`⌈(end - start) / 30⌉` slots — the ceiling, not the floor, since the
loop keeps emitting while the running total is strictly below the end
total — and the empty sequence whenever `end ≤ start` (equal bounds and
midnight-crossing windows included); `9:00 AM`–`5:00 PM` yields exactly
16 slots, the first `9:00 AM`–`9:30 AM`, the last `4:30 PM`–`5:00 PM`,
all with `isAvailable = true` and `isBooked = false`. -/
theorem generateTimeSlots_ceil_length :
    (∀ s e ps pe slots, parseTime s = some ps → parseTime e = some pe →
      generateTimeSlots s e = some slots →
      slots.length = (totalMinutes pe - totalMinutes ps + 29) / 30 ∧
      (totalMinutes pe ≤ totalMinutes ps → slots = [])) ∧
    (generateTimeSlots "9:00 AM" "5:00 PM").map List.length = some 16 ∧
    (generateTimeSlots "9:00 AM" "5:00 PM").bind List.head? =
      some ⟨"9:00 AM", "9:30 AM", true, false, none⟩ ∧
    (generateTimeSlots "9:00 AM" "5:00 PM").bind List.getLast? =
      some ⟨"4:30 PM", "5:00 PM", true, false, none⟩ ∧
    (generateTimeSlots "9:00 AM" "5:00 PM").map
      (List.all · fun t => t.isAvailable && !t.isBooked) = some true := by
  refine ⟨?_, by decide, by decide, by decide, by decide⟩
  intro s e ps pe slots hs he hgen
  have hslots : slots = genSlotsAux (totalMinutes pe) ps.hours ps.minutes
      (totalMinutes ps) (totalMinutes pe - totalMinutes ps) := by
    simp only [generateTimeSlots, hs, he, Option.bind_eq_bind, Option.some_bind,
      Option.pure_def, Option.some_inj, totalMinutes] at hgen ⊢
    exact hgen.symm
  subst hslots
  constructor
  · exact genSlotsAux_length _ _ _ _ _ (by omega)
  · intro hle
    exact genSlotsAux_stop _ _ _ _ _ hle

/-- C2 counterexample to the claim as stated: for the valid window
`9:00 AM`–`9:45 AM` (parsed minute totals 540 and 585), the code emits
2 slots while `⌊(585 - 540) / 30⌋ = 1`, so the slot count is not the
floor of the window length over 30. -/
theorem generateTimeSlots_floor_length_counterexample :
    parseTime "9:00 AM" = some ⟨9, 0⟩ ∧ parseTime "9:45 AM" = some ⟨9, 45⟩ ∧
    (generateTimeSlots "9:00 AM" "9:45 AM").map List.length = some 2 ∧
    (totalMinutes ⟨9, 45⟩ - totalMinutes ⟨9, 0⟩) / 30 = 1 ∧
    (generateTimeSlots "9:00 AM" "9:45 AM").map List.length ≠
      some ((totalMinutes ⟨9, 45⟩ - totalMinutes ⟨9, 0⟩) / 30) := by
  refine ⟨by decide, by decide, by decide, by decide, by decide⟩

/-- Witness for C2 at the concrete window `9:00 AM`–`9:45 AM`. -/
theorem generateTimeSlots_ceil_length_witness :
    generateTimeSlots "9:00 AM" "9:45 AM" =
      some [⟨"9:00 AM", "9:30 AM", true, false, none⟩,
            ⟨"9:30 AM", "10:00 AM", true, false, none⟩] ∧
    ([(⟨"9:00 AM", "9:30 AM", true, false, none⟩ : TimeSlot),
      ⟨"9:30 AM", "10:00 AM", true, false, none⟩] : List TimeSlot).length =
      (totalMinutes ⟨9, 45⟩ - totalMinutes ⟨9, 0⟩ + 29) / 30 := by
  have hgen : generateTimeSlots "9:00 AM" "9:45 AM" =
      some [⟨"9:00 AM", "9:30 AM", true, false, none⟩,
            ⟨"9:30 AM", "10:00 AM", true, false, none⟩] := by decide
  exact ⟨hgen, (generateTimeSlots_ceil_length.1 "9:00 AM" "9:45 AM" ⟨9, 0⟩ ⟨9, 45⟩ _
    (by decide) (by decide) hgen).1⟩

/-! ## Claims about the BookingReconciler -/

/-- C5: `markBookedSlots` returns a sequence of the same length (the
input list itself is untouched — the embedding is pure and the source
builds a fresh array with `map`/spread) in which each slot keeps its
`startTime`, `endTime` and `date` fields, has `isBooked` set to exactly
the `isSlotBooked` match against the appointments, and `isAvailable` set
to its negation; applying it twice with the same date, doctor name and
appointments equals applying it once. -/
theorem markBookedSlots_spec (slots : List TimeSlot) (date doctorName : String)
    (appointments : List Appointment) :
    (markBookedSlots slots date doctorName appointments).length = slots.length ∧
    (∀ i : Nat, (markBookedSlots slots date doctorName appointments)[i]? =
      (slots[i]?).map fun slot =>
        (⟨slot.startTime, slot.endTime, !isSlotBooked slot date doctorName appointments,
          isSlotBooked slot date doctorName appointments, slot.date⟩ : TimeSlot)) ∧
    markBookedSlots (markBookedSlots slots date doctorName appointments)
        date doctorName appointments =
      markBookedSlots slots date doctorName appointments := by
  refine ⟨by simp [markBookedSlots], ?_, ?_⟩
  · intro i
    rw [markBookedSlots, List.getElem?_map]
  · simp only [markBookedSlots, List.map_map]
    apply List.map_congr_left
    intro a _
    rfl

/-! ## Claims about the AppointmentLedger -/

/-- `findIndex` returns the index of the first match. -/
lemma findIdx?_append_first {α : Type} (p : α → Bool) :
    ∀ (pre : List α) (x : α) (suf : List α), (∀ a ∈ pre, p a = false) → p x = true →
      (pre ++ x :: suf).findIdx? p = some pre.length := by
  intro pre
  induction pre with
  | nil =>
    intro x suf _ hx
    simp [List.findIdx?_cons, hx]
  | cons b bs ih =>
    intro x suf hpre hx
    rw [List.cons_append, List.findIdx?_cons, hpre b (List.mem_cons_self b bs)]
    simp only [Bool.false_eq_true, if_false, List.findIdx?_succ]
    rw [ih x suf (fun a ha => hpre a (List.mem_cons_of_mem b ha)) hx]
    simp [List.length_cons]

/-- Erasing at the junction index of `pre ++ x :: suf` removes `x`. -/
lemma eraseIdx_append_middle {α : Type} :
    ∀ (pre : List α) (x : α) (suf : List α),
      (pre ++ x :: suf).eraseIdx pre.length = pre ++ suf := by
  intro pre
  induction pre with
  | nil => intro x suf; rfl
  | cons b bs ih =>
    intro x suf
    simp only [List.cons_append, List.length_cons, List.eraseIdx_cons_succ]
    rw [ih]

/-- C7: `cancelAppointment` fails with the not-found error and leaves
the ledger unchanged (the error carries no new ledger) when no
appointment has exactly that id; when a match exists it removes exactly
the first matching entry; with a unique id, cancelling twice in a row
succeeds the first time and fails with the not-found error the second
time. -/
theorem cancelAppointment_spec (appointments : List Appointment) (appointmentId : String) :
    ((∀ a ∈ appointments, a.id ≠ appointmentId) →
      cancelAppointment appointments appointmentId = .error "Appointment not found") ∧
    (∀ pre x suf, appointments = pre ++ x :: suf → x.id = appointmentId →
      (∀ a ∈ pre, a.id ≠ appointmentId) →
      cancelAppointment appointments appointmentId = .ok (pre ++ suf)) ∧
    (∀ pre x suf, appointments = pre ++ x :: suf → x.id = appointmentId →
      (∀ a ∈ pre, a.id ≠ appointmentId) → (∀ a ∈ suf, a.id ≠ appointmentId) →
      cancelAppointment appointments appointmentId = .ok (pre ++ suf) ∧
      cancelAppointment (pre ++ suf) appointmentId =
        .error "Appointment not found") := by
  have herr : ∀ l : List Appointment, (∀ a ∈ l, a.id ≠ appointmentId) →
      cancelAppointment l appointmentId = .error "Appointment not found" := by
    intro l hl
    have : l.findIdx? (fun appt => appt.id == appointmentId) = none := by
      rw [List.findIdx?_eq_none_iff]
      intro a ha
      simp [hl a ha]
    rw [cancelAppointment, this]
  have hok : ∀ pre (x : Appointment) suf, appointments = pre ++ x :: suf →
      x.id = appointmentId → (∀ a ∈ pre, a.id ≠ appointmentId) →
      cancelAppointment appointments appointmentId = .ok (pre ++ suf) := by
    intro pre x suf hsplit hx hpre
    have hfind : appointments.findIdx? (fun appt => appt.id == appointmentId)
        = some pre.length := by
      rw [hsplit]
      apply findIdx?_append_first
      · intro a ha
        simp [hpre a ha]
      · simp [hx]
    rw [cancelAppointment, hfind]
    dsimp only
    rw [hsplit, eraseIdx_append_middle]
  refine ⟨herr appointments, hok, ?_⟩
  intro pre x suf hsplit hx hpre hsuf
  refine ⟨hok pre x suf hsplit hx hpre, herr _ ?_⟩
  intro a ha
  rcases List.mem_append.mp ha with h | h
  · exact hpre a h
  · exact hsuf a h

/-- Witness for C7: a two-entry ledger, cancelling the unique id `a2`
removes the second entry; cancelling it again fails. -/
theorem cancelAppointment_spec_witness :
    cancelAppointment
        [⟨"a1", "Dr. Smith", "TZ", "2025-11-17", "Monday", "9:00 AM", "9:30 AM", "t0"⟩,
         ⟨"a2", "Dr. Smith", "TZ", "2025-11-17", "Monday", "9:30 AM", "10:00 AM", "t1"⟩]
        "a2" =
      .ok [⟨"a1", "Dr. Smith", "TZ", "2025-11-17", "Monday", "9:00 AM", "9:30 AM", "t0"⟩] ∧
    cancelAppointment
        [⟨"a1", "Dr. Smith", "TZ", "2025-11-17", "Monday", "9:00 AM", "9:30 AM", "t0"⟩]
        "a2" =
      .error "Appointment not found" := by
  have h := (cancelAppointment_spec
      [⟨"a1", "Dr. Smith", "TZ", "2025-11-17", "Monday", "9:00 AM", "9:30 AM", "t0"⟩,
       ⟨"a2", "Dr. Smith", "TZ", "2025-11-17", "Monday", "9:30 AM", "10:00 AM", "t1"⟩]
      "a2").2.2
      [⟨"a1", "Dr. Smith", "TZ", "2025-11-17", "Monday", "9:00 AM", "9:30 AM", "t0"⟩]
      ⟨"a2", "Dr. Smith", "TZ", "2025-11-17", "Monday", "9:30 AM", "10:00 AM", "t1"⟩
      [] (by decide) (by decide) (by decide) (by decide)
  simpa using h

/-- A single ledger operation preserves the
`(doctorName, date, startTime)` uniqueness invariant. -/
lemma applyOp_preserves_slotUnique (appointments : List Appointment) (op : LedgerOp)
    (h : slotUnique appointments) : slotUnique (applyOp appointments op) := by
  cases op with
  | book a =>
    rw [applyOp, bookAppointment]
    by_cases hany : appointments.any (fun appt => sameSlot appt a) = true
    · rw [if_pos hany]
      exact h
    · rw [if_neg hany]
      rw [slotUnique, List.pairwise_append]
      refine ⟨h, List.pairwise_singleton _ _, ?_⟩
      intro x hx y hy
      rw [List.mem_singleton] at hy
      subst hy
      have := List.any_eq_false.mp (Bool.not_eq_true _ ▸ hany) x hx
      simpa using this
  | cancel i =>
    rw [applyOp, cancelAppointment]
    cases hfind : appointments.findIdx? (fun appt => appt.id == i) with
    | none => exact h
    | some k => exact List.Pairwise.sublist (List.eraseIdx_sublist appointments k) h

/-- C1: starting from the empty ledger, after any sequence of `book` and
`cancel` operations no two ledger entries share
`(doctorName, date, startTime)`; a `book` colliding with an existing
entry on that triple fails with the duplicate-slot error and leaves the
ledger sequence unchanged, while a non-colliding `book` appends the
appointment at the end, preserving booking order. -/
theorem bookAppointment_unique_invariant :
    (∀ ops, slotUnique (runOps [] ops)) ∧
    (∀ appointments a, appointments.any (fun appt => sameSlot appt a) = true →
      bookAppointment appointments a = .error "This time slot is already booked" ∧
      applyOp appointments (.book a) = appointments) ∧
    (∀ appointments a, appointments.any (fun appt => sameSlot appt a) = false →
      bookAppointment appointments a = .ok (appointments ++ [a]) ∧
      applyOp appointments (.book a) = appointments ++ [a]) := by
  refine ⟨?_, ?_, ?_⟩
  · intro ops
    have : ∀ (l : List Appointment), slotUnique l → slotUnique (runOps l ops) := by
      induction ops with
      | nil => intro l hl; exact hl
      | cons op rest ih =>
        intro l hl
        exact ih _ (applyOp_preserves_slotUnique l op hl)
    exact this [] List.Pairwise.nil
  · intro appointments a hany
    have hb : bookAppointment appointments a
        = .error "This time slot is already booked" := by
      rw [bookAppointment, if_pos hany]
    refine ⟨hb, ?_⟩
    rw [applyOp, hb]
  · intro appointments a hany
    have hb : bookAppointment appointments a = .ok (appointments ++ [a]) := by
      rw [bookAppointment, if_neg (by simp [hany])]
    refine ⟨hb, ?_⟩
    rw [applyOp, hb]

/-- Witness for C1: book the same slot twice then cancel; the first
`book` appends, the second fails with the duplicate-slot error and
leaves the ledger unchanged, and the resulting ledgers satisfy the
uniqueness invariant. -/
theorem bookAppointment_unique_invariant_witness :
    slotUnique (runOps []
      [.book ⟨"a1", "Dr. Smith", "TZ", "2025-11-17", "Monday", "9:00 AM", "9:30 AM", "t0"⟩,
       .book ⟨"a2", "Dr. Smith", "TZ", "2025-11-17", "Monday", "9:00 AM", "10:00 AM", "t1"⟩,
       .cancel "a1"]) ∧
    (bookAppointment
        [⟨"a1", "Dr. Smith", "TZ", "2025-11-17", "Monday", "9:00 AM", "9:30 AM", "t0"⟩]
        ⟨"a2", "Dr. Smith", "TZ", "2025-11-17", "Monday", "9:00 AM", "10:00 AM", "t1"⟩ =
      .error "This time slot is already booked" ∧
     applyOp [⟨"a1", "Dr. Smith", "TZ", "2025-11-17", "Monday", "9:00 AM", "9:30 AM", "t0"⟩]
        (.book ⟨"a2", "Dr. Smith", "TZ", "2025-11-17", "Monday", "9:00 AM", "10:00 AM", "t1"⟩) =
      [⟨"a1", "Dr. Smith", "TZ", "2025-11-17", "Monday", "9:00 AM", "9:30 AM", "t0"⟩]) ∧
    (bookAppointment []
        ⟨"a1", "Dr. Smith", "TZ", "2025-11-17", "Monday", "9:00 AM", "9:30 AM", "t0"⟩ =
      .ok [⟨"a1", "Dr. Smith", "TZ", "2025-11-17", "Monday", "9:00 AM", "9:30 AM", "t0"⟩]) :=
  ⟨bookAppointment_unique_invariant.1 _,
   bookAppointment_unique_invariant.2.1
     [⟨"a1", "Dr. Smith", "TZ", "2025-11-17", "Monday", "9:00 AM", "9:30 AM", "t0"⟩]
     ⟨"a2", "Dr. Smith", "TZ", "2025-11-17", "Monday", "9:00 AM", "10:00 AM", "t1"⟩
     (by decide),
   (bookAppointment_unique_invariant.2.2 []
     ⟨"a1", "Dr. Smith", "TZ", "2025-11-17", "Monday", "9:00 AM", "9:30 AM", "t0"⟩
     (by decide)).1⟩

/-- C6: for every date valuation, current timestamp and ledger contents,
`upcomingAppointments` consists exactly (as a multiset and pointwise by
membership) of the appointments whose parsed date is ≥ now, sorted
ascending by parsed date, and `pastAppointments` exactly of those whose
parsed date is < now, sorted descending; consequently any appointment
whose parsed date (its local midnight) is before now — in particular one
dated today once now has passed that midnight — is classified past, not
upcoming. -/
theorem upcoming_past_views_spec (dv : String → Int) (now : Int)
    (appointments : List Appointment) :
    (upcomingAppointments dv now appointments).Perm
      (appointments.filter fun a => decide (now ≤ dv a.date)) ∧
    (upcomingAppointments dv now appointments).Pairwise
      (fun a b => dv a.date ≤ dv b.date) ∧
    (∀ a, a ∈ upcomingAppointments dv now appointments ↔
      a ∈ appointments ∧ now ≤ dv a.date) ∧
    (pastAppointments dv now appointments).Perm
      (appointments.filter fun a => decide (dv a.date < now)) ∧
    (pastAppointments dv now appointments).Pairwise
      (fun a b => dv b.date ≤ dv a.date) ∧
    (∀ a, a ∈ pastAppointments dv now appointments ↔
      a ∈ appointments ∧ dv a.date < now) ∧
    (∀ a ∈ appointments, dv a.date < now →
      a ∈ pastAppointments dv now appointments ∧
      a ∉ upcomingAppointments dv now appointments) := by
  have hup : (upcomingAppointments dv now appointments).Perm
      (appointments.filter fun a => decide (now ≤ dv a.date)) :=
    List.perm_insertionSort _ _
  have hpa : (pastAppointments dv now appointments).Perm
      (appointments.filter fun a => decide (dv a.date < now)) :=
    List.perm_insertionSort _ _
  have hupMem : ∀ a, a ∈ upcomingAppointments dv now appointments ↔
      a ∈ appointments ∧ now ≤ dv a.date := by
    intro a
    rw [hup.mem_iff, List.mem_filter]
    simp
  have hpaMem : ∀ a, a ∈ pastAppointments dv now appointments ↔
      a ∈ appointments ∧ dv a.date < now := by
    intro a
    rw [hpa.mem_iff, List.mem_filter]
    simp
  haveI hto1 : IsTotal Appointment (fun a b => dv a.date ≤ dv b.date) :=
    ⟨fun a b => le_total _ _⟩
  haveI htr1 : IsTrans Appointment (fun a b => dv a.date ≤ dv b.date) :=
    ⟨fun _ _ _ hab hbc => le_trans hab hbc⟩
  haveI hto2 : IsTotal Appointment (fun a b => dv b.date ≤ dv a.date) :=
    ⟨fun a b => le_total _ _⟩
  haveI htr2 : IsTrans Appointment (fun a b => dv b.date ≤ dv a.date) :=
    ⟨fun _ _ _ hab hbc => le_trans hbc hab⟩
  refine ⟨hup, List.sorted_insertionSort _ _, hupMem, hpa,
    List.sorted_insertionSort _ _, hpaMem, ?_⟩
  intro a ha hlt
  refine ⟨(hpaMem a).mpr ⟨ha, hlt⟩, ?_⟩
  intro hmem
  exact absurd hlt (not_lt.mpr ((hupMem a).mp hmem).2)

/-- Witness for C6: under the valuation sending every date string to 0
with now = 1 (now strictly after the appointment's parsed midnight), a
same-day appointment lands in the past view and not in the upcoming
view. -/
theorem upcoming_past_views_spec_witness :
    (⟨"a1", "Dr. Smith", "TZ", "2025-11-17", "Monday", "9:00 AM", "9:30 AM", "t0"⟩ : Appointment)
      ∈ pastAppointments (fun _ => (0 : Int)) 1
        [⟨"a1", "Dr. Smith", "TZ", "2025-11-17", "Monday", "9:00 AM", "9:30 AM", "t0"⟩] ∧
    (⟨"a1", "Dr. Smith", "TZ", "2025-11-17", "Monday", "9:00 AM", "9:30 AM", "t0"⟩ : Appointment)
      ∉ upcomingAppointments (fun _ => (0 : Int)) 1
        [⟨"a1", "Dr. Smith", "TZ", "2025-11-17", "Monday", "9:00 AM", "9:30 AM", "t0"⟩] :=
  (upcoming_past_views_spec (fun _ => (0 : Int)) 1
      [⟨"a1", "Dr. Smith", "TZ", "2025-11-17", "Monday", "9:00 AM", "9:30 AM", "t0"⟩]).2.2.2.2.2.2
    ⟨"a1", "Dr. Smith", "TZ", "2025-11-17", "Monday", "9:00 AM", "9:30 AM", "t0"⟩
    (List.mem_singleton.mpr rfl) (by decide)

/-! ## Claims about doctor grouping -/

/-- The doctor-name list after one grouping step: unchanged when the
record's name is already present, extended by the new name otherwise. -/
lemma addSchedule_names (acc : List Doctor) (s : DoctorScheduleRaw) :
    (addSchedule acc s).map Doctor.name =
      if acc.any (fun d => d.name == s.name) then acc.map Doctor.name
      else acc.map Doctor.name ++ [s.name] := by
  by_cases h : acc.any (fun d => d.name == s.name)
  · rw [addSchedule, if_pos h, if_pos h, List.map_map]
    apply List.map_congr_left
    intro d _
    simp only [Function.comp_apply]
    split <;> rfl
  · rw [addSchedule, if_neg h, if_neg h, List.map_append, List.map_cons, List.map_nil]

/-- A name occurs among the grouped doctors iff it occurs in the
accumulator or among the remaining raw records. -/
lemma foldl_addSchedule_name_mem (n : String) :
    ∀ (ss : List DoctorScheduleRaw) (acc : List Doctor),
      n ∈ (ss.foldl addSchedule acc).map Doctor.name ↔
        n ∈ acc.map Doctor.name ∨ n ∈ ss.map DoctorScheduleRaw.name := by
  intro ss
  induction ss with
  | nil => intro acc; simp
  | cons s rest ih =>
    intro acc
    rw [List.foldl_cons, ih]
    have hstep : n ∈ (addSchedule acc s).map Doctor.name ↔
        n ∈ acc.map Doctor.name ∨ n = s.name := by
      rw [addSchedule_names]
      by_cases h : acc.any (fun d => d.name == s.name)
      · rw [if_pos h]
        constructor
        · exact Or.inl
        · rintro (hn | rfl)
          · exact hn
          · rcases List.any_eq_true.mp h with ⟨d, hd, hds⟩
            have hdn : d.name = s.name := by simpa using hds
            exact hdn ▸ List.mem_map_of_mem Doctor.name hd
      · rw [if_neg h]
        simp
    rw [hstep, List.map_cons]
    simp only [List.mem_cons]
    tauto

/-- Grouping never introduces a duplicate doctor name. -/
lemma foldl_addSchedule_nodup :
    ∀ (ss : List DoctorScheduleRaw) (acc : List Doctor),
      (acc.map Doctor.name).Nodup → ((ss.foldl addSchedule acc).map Doctor.name).Nodup := by
  intro ss
  induction ss with
  | nil => intro acc h; exact h
  | cons s rest ih =>
    intro acc h
    rw [List.foldl_cons]
    apply ih
    rw [addSchedule_names]
    by_cases hc : acc.any (fun d => d.name == s.name)
    · rw [if_pos hc]
      exact h
    · rw [if_neg hc, List.nodup_append]
      refine ⟨h, List.nodup_singleton _, ?_⟩
      intro x hx hxs
      rw [List.mem_singleton] at hxs
      subst hxs
      rcases List.mem_map.mp hx with ⟨d, hd, hdn⟩
      have hne := List.any_eq_false.mp (Bool.not_eq_true _ ▸ hc) d hd
      exact hne (by simp [hdn])

/-- Schedules accounting for grouping: every grouped doctor either
extends a doctor already in the accumulator by exactly that doctor's
matching windows from the remaining records, in input order, or is new
and carries exactly its matching windows from the remaining records. -/
lemma foldl_addSchedule_schedules :
    ∀ (ss : List DoctorScheduleRaw) (acc : List Doctor),
      ∀ d ∈ ss.foldl addSchedule acc,
        (∃ d0 ∈ acc, d.name = d0.name ∧
          d.schedules = d0.schedules ++ (ss.filter fun r => r.name == d.name).map toWindow) ∨
        (d.name ∉ acc.map Doctor.name ∧
          d.schedules = (ss.filter fun r => r.name == d.name).map toWindow) := by
  intro ss
  induction ss with
  | nil =>
    intro acc d hd
    exact Or.inl ⟨d, hd, rfl, by simp⟩
  | cons s rest ih =>
    intro acc d hd
    rw [List.foldl_cons] at hd
    rcases ih (addSchedule acc s) d hd with ⟨d0, hd0mem, hname, hsched⟩ | ⟨hnot, hsched⟩
    · rw [addSchedule] at hd0mem
      by_cases hc : acc.any (fun x => x.name == s.name)
      · rw [if_pos hc] at hd0mem
        rcases List.mem_map.mp hd0mem with ⟨d1, hd1, hupd⟩
        by_cases h1 : (d1.name == s.name) = true
        · rw [if_pos h1] at hupd
          have h1' : d1.name = s.name := by simpa using h1
          have hn0 : d0.name = d1.name := by rw [← hupd]
          have hdn : d.name = s.name := by rw [hname, hn0, h1']
          left
          refine ⟨d1, hd1, by rw [hname, hn0], ?_⟩
          have hd0s : d0.schedules = d1.schedules ++ [toWindow s] := by rw [← hupd]
          rw [List.filter_cons, if_pos (by simp [hdn]), List.map_cons, hsched, hd0s,
            List.append_assoc, List.singleton_append]
        · rw [if_neg h1] at hupd
          subst hupd
          have hne : ¬s.name = d.name := by
            intro h
            exact h1 (by simp [← hname, ← h])
          left
          refine ⟨d1, hd1, hname, ?_⟩
          rw [List.filter_cons, if_neg (by simpa using hne), hsched]
      · rw [if_neg hc] at hd0mem
        rcases List.mem_append.mp hd0mem with hin | hnew
        · have hne := List.any_eq_false.mp (Bool.not_eq_true _ ▸ hc) d0 hin
          have hne' : ¬s.name = d.name := by
            intro h
            exact hne (by simp [← hname, ← h])
          left
          refine ⟨d0, hin, hname, ?_⟩
          rw [List.filter_cons, if_neg (by simpa using hne'), hsched]
        · rw [List.mem_singleton] at hnew
          subst hnew
          have hdn : d.name = s.name := hname
          right
          constructor
          · intro hmem
            rcases List.mem_map.mp hmem with ⟨d2, hd2, hdn2⟩
            have hne := List.any_eq_false.mp (Bool.not_eq_true _ ▸ hc) d2 hd2
            exact hne (by simp [hdn2, ← hdn])
          · rw [List.filter_cons, if_pos (by simp [hdn]), List.map_cons, hsched]
            rfl
    · rw [addSchedule_names] at hnot
      by_cases hc : acc.any (fun x => x.name == s.name)
      · rw [if_pos hc] at hnot
        have hne : ¬d.name = s.name := by
          intro hdn
          rcases List.any_eq_true.mp hc with ⟨d2, hd2, hds⟩
          have : d2.name = s.name := by simpa using hds
          exact hnot (hdn ▸ this ▸ List.mem_map_of_mem Doctor.name hd2)
        right
        refine ⟨hnot, ?_⟩
        rw [List.filter_cons, if_neg (by simp; exact fun h => hne h.symm), hsched]
      · rw [if_neg hc, List.mem_append] at hnot
        push_neg at hnot
        have hne : ¬d.name = s.name := fun h => hnot.2 (by simp [h])
        right
        refine ⟨hnot.1, ?_⟩
        rw [List.filter_cons, if_neg (by simp; exact fun h => hne h.symm), hsched]

/-- C8: `groupSchedulesByDoctor` produces one doctor per distinct name
under exact case-sensitive equality (doctor names are duplicate-free and
are exactly the names occurring in the input, so names differing only by
case stay distinct), and each doctor's schedules list is exactly that
doctor's windows in input order (the `filter` of the raw records by its
name, mapped to windows). -/
theorem groupSchedulesByDoctor_spec (schedules : List DoctorScheduleRaw) :
    ((groupSchedulesByDoctor schedules).map Doctor.name).Nodup ∧
    (∀ n, n ∈ (groupSchedulesByDoctor schedules).map Doctor.name ↔
      n ∈ schedules.map DoctorScheduleRaw.name) ∧
    (∀ d ∈ groupSchedulesByDoctor schedules,
      d.schedules = (schedules.filter fun r => r.name == d.name).map toWindow) := by
  refine ⟨?_, ?_, ?_⟩
  · exact foldl_addSchedule_nodup schedules [] (by simp)
  · intro n
    rw [groupSchedulesByDoctor, foldl_addSchedule_name_mem]
    simp
  · intro d hd
    rw [groupSchedulesByDoctor] at hd
    rcases foldl_addSchedule_schedules schedules [] d hd with ⟨d0, h0, _⟩ | ⟨_, h⟩
    · exact absurd h0 (List.not_mem_nil d0)
    · exact h

/-- Witness for C8: two records for `Dr. Smith` and one for
`dr. smith`; the grouped `Dr. Smith` doctor carries exactly its two
windows, in input order, and is distinct from `dr. smith`. -/
theorem groupSchedulesByDoctor_spec_witness :
    (⟨"Dr. Smith", "TZ1",
      [⟨"Monday", "9:00 AM", "5:00 PM"⟩, ⟨"Tuesday", "9:00 AM", "5:00 PM"⟩]⟩ : Doctor).schedules
      = (([⟨"Dr. Smith", "TZ1", "Monday", "9:00 AM", "5:00 PM"⟩,
           ⟨"dr. smith", "TZ2", "Monday", "10:00 AM", "6:00 PM"⟩,
           ⟨"Dr. Smith", "TZ1", "Tuesday", "9:00 AM", "5:00 PM"⟩] :
            List DoctorScheduleRaw).filter
          fun r => r.name ==
            (⟨"Dr. Smith", "TZ1",
              [⟨"Monday", "9:00 AM", "5:00 PM"⟩,
               ⟨"Tuesday", "9:00 AM", "5:00 PM"⟩]⟩ : Doctor).name).map toWindow :=
  (groupSchedulesByDoctor_spec
      [⟨"Dr. Smith", "TZ1", "Monday", "9:00 AM", "5:00 PM"⟩,
       ⟨"dr. smith", "TZ2", "Monday", "10:00 AM", "6:00 PM"⟩,
       ⟨"Dr. Smith", "TZ1", "Tuesday", "9:00 AM", "5:00 PM"⟩]).2.2
    ⟨"Dr. Smith", "TZ1",
      [⟨"Monday", "9:00 AM", "5:00 PM"⟩, ⟨"Tuesday", "9:00 AM", "5:00 PM"⟩]⟩
    (by decide)

/-! ## Claims about the weekly projection -/

/-- `find` returns the first match. -/
lemma find?_append_first {α : Type} (p : α → Bool) :
    ∀ (pre : List α) (x : α) (suf : List α), (∀ a ∈ pre, p a = false) → p x = true →
      (pre ++ x :: suf).find? p = some x := by
  intro pre
  induction pre with
  | nil =>
    intro x suf _ hx
    simp [List.find?_cons, hx]
  | cons b bs ih =>
    intro x suf hpre hx
    rw [List.cons_append,
      List.find?_cons_of_neg _ (by simp [hpre b (List.mem_cons_self b bs)])]
    exact ih x suf (fun a ha => hpre a (List.mem_cons_of_mem b ha)) hx

/-- `slotsPerDay` yields one entry per projected day. -/
lemma slotsPerDay_length (doctor : Doctor) (appointments : List Appointment) :
    ∀ (days : List (String × String)) (entries : List DayEntry),
      slotsPerDay doctor appointments days = some entries →
      entries.length = days.length := by
  intro days
  induction days with
  | nil =>
    intro entries h
    rw [slotsPerDay] at h
    cases h
    rfl
  | cons day rest ih =>
    intro entries h
    rw [slotsPerDay] at h
    cases hp : projectDay doctor appointments day.1 day.2 with
    | none => rw [hp] at h; cases h
    | some e =>
      rw [hp] at h
      cases hr : slotsPerDay doctor appointments rest with
      | none => rw [hr] at h; cases h
      | some es =>
        rw [hr] at h
        cases h
        simp [List.length_cons, ih es hr]

/-- C9: the weekly projection resolves each projected day to the first
availability window whose `dayOfWeek` equals the day's weekday name — if
several windows share a weekday only the first is used for slot
generation — while a day with no matching window gets an entry with no
schedule and an empty slot list; the projection emits exactly one entry
per projected day (7 in the component). -/
theorem slotsPerDay_first_window_spec :
    (∀ (doctor : Doctor) (appointments : List Appointment) (dayName dateString : String),
      (∀ w ∈ doctor.schedules, w.dayOfWeek ≠ dayName) →
      projectDay doctor appointments dayName dateString =
        some ⟨dateString, dayName, none, []⟩) ∧
    (∀ (doctor : Doctor) (appointments : List Appointment) (dayName dateString : String)
      (pre : List DoctorSchedule) (w : DoctorSchedule) (suf : List DoctorSchedule),
      doctor.schedules = pre ++ w :: suf →
      (∀ v ∈ pre, v.dayOfWeek ≠ dayName) → w.dayOfWeek = dayName →
      projectDay doctor appointments dayName dateString =
        (generateTimeSlots w.availableAt w.availableUntil).map fun slots =>
          ⟨dateString, dayName, some w,
            markBookedSlots slots dateString doctor.name appointments⟩) ∧
    (∀ (doctor : Doctor) (appointments : List Appointment)
      (days : List (String × String)) (entries : List DayEntry),
      slotsPerDay doctor appointments days = some entries →
      entries.length = days.length) := by
  refine ⟨?_, ?_, fun doctor appointments => slotsPerDay_length doctor appointments⟩
  · intro doctor appointments dayName dateString h
    have hfind : doctor.schedules.find? (fun s => s.dayOfWeek == dayName) = none := by
      rw [List.find?_eq_none]
      intro w hw
      simp [h w hw]
    rw [projectDay, hfind]
  · intro doctor appointments dayName dateString pre w suf hsplit hpre hw
    have hfind : doctor.schedules.find? (fun s => s.dayOfWeek == dayName) = some w := by
      rw [hsplit]
      apply find?_append_first
      · intro v hv
        simp [hpre v hv]
      · simp [hw]
    rw [projectDay, hfind]

/-- Witness for C9: a doctor with two Monday windows; Sunday (no window)
projects to an empty slot list, Monday projects from the first Monday
window only. -/
theorem slotsPerDay_first_window_spec_witness :
    projectDay
        ⟨"Dr. Smith", "TZ",
          [⟨"Monday", "9:00 AM", "10:00 AM"⟩, ⟨"Monday", "1:00 PM", "2:00 PM"⟩]⟩
        [] "Sunday" "2025-11-16" =
      some ⟨"2025-11-16", "Sunday", none, []⟩ ∧
    projectDay
        ⟨"Dr. Smith", "TZ",
          [⟨"Monday", "9:00 AM", "10:00 AM"⟩, ⟨"Monday", "1:00 PM", "2:00 PM"⟩]⟩
        [] "Monday" "2025-11-17" =
      (generateTimeSlots
          (⟨"Monday", "9:00 AM", "10:00 AM"⟩ : DoctorSchedule).availableAt
          (⟨"Monday", "9:00 AM", "10:00 AM"⟩ : DoctorSchedule).availableUntil).map
        (fun slots =>
          ⟨"2025-11-17", "Monday", some ⟨"Monday", "9:00 AM", "10:00 AM"⟩,
            markBookedSlots slots "2025-11-17"
              (⟨"Dr. Smith", "TZ",
                [⟨"Monday", "9:00 AM", "10:00 AM"⟩,
                 ⟨"Monday", "1:00 PM", "2:00 PM"⟩]⟩ : Doctor).name []⟩) :=
  ⟨slotsPerDay_first_window_spec.1
      ⟨"Dr. Smith", "TZ",
        [⟨"Monday", "9:00 AM", "10:00 AM"⟩, ⟨"Monday", "1:00 PM", "2:00 PM"⟩]⟩
      [] "Sunday" "2025-11-16" (by decide),
   slotsPerDay_first_window_spec.2.1
      ⟨"Dr. Smith", "TZ",
        [⟨"Monday", "9:00 AM", "10:00 AM"⟩, ⟨"Monday", "1:00 PM", "2:00 PM"⟩]⟩
      [] "Monday" "2025-11-17" [] ⟨"Monday", "9:00 AM", "10:00 AM"⟩
      [⟨"Monday", "1:00 PM", "2:00 PM"⟩] rfl (by decide) rfl⟩
